import Mathlib

set_option maxHeartbeats 1000000

/-!
Verification development for the napi-rs function-binding code generator
(`crates/backend/src/codegen/fn.rs`).  The generator turns a `NapiFn`
descriptor into (a) an ABI entry point, (b) per-argument conversion
statements, (c) callback trampolines, and (d) a registration record.  We
embed the descriptor model, translate each generator function into a Lean
function producing a small generated-code AST, and interpret that AST
against an abstract host runtime to settle behavioural properties.
-/

namespace NapiGen

/-- Error code carried by failure results (`napi::Error` abstracted to a number). -/
abbrev Err := Nat

/-- Opaque native (Rust-side) value produced by argument conversions and native calls. -/
abbrev NativeVal := Nat

/-- Runtime value handle (`sys::napi_value`): the null pointer or a non-null handle. -/
inductive JsVal where
  | nullPtr
  | handle (n : Nat)
deriving DecidableEq

/-- Shape of a parameter or return type, keeping exactly the distinctions that
`fn.rs` inspects on a `syn::Type`: a path type (its first segment head plus the
head of the first angle-bracketed generic argument, when any), or a Rust
reference `&T` / `&mut T`. -/
inductive Ty where
  | path (head : String) (firstGeneric : Option String)
  | refTy (isMut : Bool) (elem : Ty)
deriving DecidableEq

/-- Check `path.ty.to_token_stream().to_string() == "Env"` from `gen_arg_conversions`. -/
def isEnvTy : Ty → Bool
  | .path "Env" none => true
  | _ => false

/-- Check for the owner-reference special case of `gen_arg_conversions`: the
parent is present, the type's first path segment is `Reference`, and the first
generic argument's first path segment equals the parent. -/
def isOwnerRefTy (parent : Option String) (ty : Ty) : Bool :=
  match parent with
  | some p => decide (ty = Ty.path "Reference" (some p))
  | none => false

/-- Check `ty_string == "& Self" || ty_string == "&mut Self"` from `gen_fn_return`
(a reference to `Self`, with either mutability). -/
def isReturnSelf : Ty → Bool
  | .refTy _ (.path "Self" none) => true
  | _ => false

/-- Modelled from the spec: the `CallbackArg` descriptor (`CallbackDescriptor`),
declared outside the provided sources; its fields are the ones `fn.rs` reads:
`args`, `ret`, `raw_ret`, `pure_fn` and `generic_name`. -/
structure CallbackArg where
  args : List Ty
  ret : Option Ty
  rawRet : Option Ty
  pureFn : Bool
  genericName : String
deriving DecidableEq

/-- Modelled from the spec: a parameter (`Parameter`) is either a typed pattern
(`PatType`, covering plain values, references, the environment handle and the
owner-reference case) or a callback. -/
inductive NapiFnArgKind where
  | patType (ty : Ty)
  | callback (cb : CallbackArg)
deriving DecidableEq

/-- Modelled from the spec: function kinds (`kind`) distinguished by the
generator: Plain, Constructor, Factory. -/
inductive FnKind where
  | plain
  | constructor
  | factory
deriving DecidableEq

/-- Modelled from the spec: receiver kinds (`fn_self`); `value` (`ValueSelf`)
is an invalid state rejected upstream. -/
inductive FnSelf where
  | value
  | ref
  | mutRef
deriving DecidableEq

/-- Modelled from the spec: the `FunctionDescriptor` (`NapiFn`), restricted to
the fields `fn.rs` reads (registration attributes and the module path, which
no claim touches, are omitted). -/
structure NapiFn where
  name : String
  jsName : String
  kind : FnKind
  fnSelf : Option FnSelf
  parent : Option String
  args : List NapiFnArgKind
  ret : Option Ty
  isRetResult : Bool
  isAsync : Bool
  strict : Bool
deriving DecidableEq

/-- One emitted argument-conversion statement, as produced by
`gen_arg_conversions` / `gen_ty_arg_conversion` / `gen_cb_arg_conversion`.
`fetchThis` is the receiver-recovery statement binding `this_ptr`/`this`;
the other variants bind `arg{slot}` from call-frame slot `slot`. -/
inductive ConvStmt where
  | fetchThis (isMut : Bool) (parent : String)
  | mutRefConv (slot : Nat) (elem : Ty)
  | refConv (slot : Nat) (elem : Ty)
  | ownedConv (slot : Nat) (ty : Ty) (strict : Bool)
  | cbConv (slot : Nat) (cb : CallbackArg)
deriving DecidableEq

/-- One call-site argument expression pushed into `args` by `gen_arg_conversions`:
`Env::from(env)`, the reused instance handle `Reference::from_value_ptr(this_ptr, env)`,
or a plain identifier `arg{i}`. -/
inductive ArgExpr where
  | envExpr
  | thisReference
  | ident (i : Nat)
deriving DecidableEq

/-- A synthesized invocation interface (`trait FunctionCall{n}`), recording the
per-function counter value, the derived name, and the signature taken from the
callback descriptor. -/
structure TraitDef where
  nameIdx : Nat
  name : String
  sigArgs : List Ty
  rawRet : Option Ty
deriving DecidableEq

/-- The implementation of a synthesized invocation interface for the generic
holder type (`impl <T: Fn(..)> FunctionCall{n} for Function<T>`). -/
structure TraitImpl where
  nameIdx : Nat
  traitName : String
  genericName : String
  sigArgs : List Ty
  rawRet : Option Ty
deriving DecidableEq

def mkTraitDef (tc : Nat) (cb : CallbackArg) : TraitDef :=
  ⟨tc, "FunctionCall" ++ toString tc, cb.args, cb.rawRet⟩

def mkTraitImpl (tc : Nat) (cb : CallbackArg) : TraitImpl :=
  ⟨tc, "FunctionCall" ++ toString tc, cb.genericName, cb.args, cb.rawRet⟩

/-- The quadruple returned by `gen_arg_conversions`: conversion statements,
call-site argument expressions, synthesized trait declarations and their
implementations. -/
structure GenArgs where
  convs : List ConvStmt
  argExprs : List ArgExpr
  traitDefs : List TraitDef
  traitImpls : List TraitImpl
deriving DecidableEq

namespace NapiFn

/-- Translation of `gen_ty_arg_conversion`: a mutable reference type converts
via `FromNapiMutRef`, a shared reference via `FromNapiRef`, anything else via
the owned `FromNapiValue` path, prefixed by a validation check when `strict`. -/
def genTyArgConversion (f : NapiFn) (i : Nat) : Ty → ConvStmt
  | .refTy true elem => .mutRefConv i elem
  | .refTy false elem => .refConv i elem
  | ty => .ownedConv i ty f.strict

/-- Translation of the parameter loop of `gen_arg_conversions`, carrying the
enumeration index `idx`, the `skipped_arg_count` and the `trait_name_count`
exactly as the source does (the slot read is `idx - skipped`). -/
def argsLoop (f : NapiFn) : List NapiFnArgKind → Nat → Nat → Nat → GenArgs
  | [], _, _, _ => ⟨[], [], [], []⟩
  | a :: rest, idx, skipped, tc =>
    let i := idx - skipped
    match a with
    | .patType ty =>
      if isEnvTy ty then
        let g := f.argsLoop rest (idx + 1) (skipped + 1) tc
        { g with argExprs := .envExpr :: g.argExprs }
      else if isOwnerRefTy f.parent ty then
        let g := f.argsLoop rest (idx + 1) (skipped + 1) tc
        { g with argExprs := .thisReference :: g.argExprs }
      else
        let g := f.argsLoop rest (idx + 1) skipped tc
        { g with
            convs := f.genTyArgConversion i ty :: g.convs
            argExprs := .ident i :: g.argExprs }
    | .callback cb =>
      if cb.pureFn then
        let g := f.argsLoop rest (idx + 1) skipped tc
        { g with
            convs := .cbConv i cb :: g.convs
            argExprs := .ident i :: g.argExprs }
      else
        let g := f.argsLoop rest (idx + 1) skipped (tc + 1)
        { g with
            convs := .cbConv i cb :: g.convs
            argExprs := .ident i :: g.argExprs
            traitDefs := mkTraitDef tc cb :: g.traitDefs
            traitImpls := mkTraitImpl tc cb :: g.traitImpls }

/-- The receiver-recovery prefix of `gen_arg_conversions`: when a parent is
present and the receiver is `&self` / `&mut self`, a statement recovering
`this` from the opaque instance handle is emitted first. -/
def thisStmts (f : NapiFn) : List ConvStmt :=
  match f.parent, f.fnSelf with
  | some p, some FnSelf.ref => [.fetchThis false p]
  | some p, some FnSelf.mutRef => [.fetchThis true p]
  | _, _ => []

/-- Translation of `gen_arg_conversions`. -/
def genArgConversions (f : NapiFn) : GenArgs :=
  let g := f.argsLoop f.args 0 0 0
  { g with convs := f.thisStmts ++ g.convs }

end NapiFn

/-- The callable expression computed by `gen_fn_receiver`: the receiver's own
method `this.name`, the owner-namespaced function `Class::name`, or a bare
function reference. -/
inductive ReceiverExpr where
  | thisMethod (name : String)
  | nsFn (cls : String) (name : String)
  | bareFn (name : String)
deriving DecidableEq

/-- Translation of `gen_fn_receiver`; the `FnSelf::Value` arm is
`unimplemented!()` in the source (generation fails fast), modelled as `none`. -/
def NapiFn.genFnReceiver (f : NapiFn) : Option ReceiverExpr :=
  match f.fnSelf with
  | some FnSelf.value => none
  | some FnSelf.ref | some FnSelf.mutRef => some (.thisMethod f.name)
  | none =>
    match f.parent with
    | some cls => some (.nsFn cls f.name)
    | none => some (.bareFn f.name)

/-- The return-assembly shape chosen by `gen_fn_return`:
`construct`/`factoryAsm` bind the produced value to the instance handle,
`asyncConvert` converts the async result directly, `returnSelfFallible` maps a
success to the original `cb.this`, `fallibleMatch` converts a success and turns
a failure into a thrown exception plus a null handle, `returnSelf` returns
`cb.this`, `convertDirect` converts the value, `unitConvert` converts `()`. -/
inductive RetAssembly where
  | construct (fallible : Bool)
  | factoryAsm (fallible : Bool)
  | asyncConvert
  | returnSelfFallible
  | fallibleMatch
  | returnSelf
  | convertDirect
  | unitConvert
deriving DecidableEq

/-- Translation of `gen_fn_return`. -/
def NapiFn.genFnReturn (f : NapiFn) : RetAssembly :=
  match f.ret with
  | some ty =>
    if f.kind = FnKind.constructor then .construct f.isRetResult
    else if f.kind = FnKind.factory then .factoryAsm f.isRetResult
    else if f.isRetResult then
      if f.isAsync then .asyncConvert
      else if isReturnSelf ty then .returnSelfFallible
      else .fallibleMatch
    else if isReturnSelf ty then .returnSelf
    else .convertDirect
  | none => .unitConvert

/-- The native-call shape of `try_to_tokens`: a synchronous inline call
(`fallible` records whether the underlying function returns a `Result`), or an
asynchronous call dispatched through `execute_tokio_future` (`wrapOk` records
the `Ok(..)` wrapper inserted for infallible async functions). -/
inductive NativeCall where
  | sync (fallible : Bool) (recv : ReceiverExpr) (argExprs : List ArgExpr) (ret : RetAssembly)
  | asyncCall (wrapOk : Bool) (recv : ReceiverExpr) (argExprs : List ArgExpr) (ret : RetAssembly)
deriving DecidableEq

/-- The `function_call` dispatch of `try_to_tokens`: the zero-argument direct
path, the constructor path guarded by the process-wide factory flag, or the
ordinary framed path (`CallbackInfo::new` followed by conversions and the
native call). -/
inductive FunctionCall where
  | direct (nc : NativeCall)
  | guarded (argsLen : Nat) (convs : List ConvStmt) (nc : NativeCall)
  | framed (argsLen : Nat) (convs : List ConvStmt) (nc : NativeCall)
deriving DecidableEq

/-- Assembly of the native call from `try_to_tokens` (lines 24-42). -/
def NapiFn.genNativeCall (f : NapiFn) : Option NativeCall :=
  (f.genFnReceiver).map fun recv =>
    if f.isAsync then
      .asyncCall (!f.isRetResult) recv f.genArgConversions.argExprs f.genFnReturn
    else
      .sync f.isRetResult recv f.genArgConversions.argExprs f.genFnReturn

/-- Assembly of the `function_call` dispatch from `try_to_tokens` (lines 44-69). -/
def NapiFn.genFunctionCall (f : NapiFn) : Option FunctionCall :=
  (f.genNativeCall).map fun nc =>
    if f.args.length = 0 ∧ f.fnSelf = none ∧ f.kind ≠ FnKind.constructor
        ∧ f.kind ≠ FnKind.factory then
      .direct nc
    else if f.kind = FnKind.constructor then
      .guarded f.args.length f.genArgConversions.convs nc
    else
      .framed f.args.length f.genArgConversions.convs nc

/-- A statement of the body of the user function being generated: a synthesized
trait declaration, a synthesized trait implementation, or one of the original
body statements. -/
inductive BodyStmt where
  | traitDecl (d : TraitDef)
  | implDecl (d : TraitImpl)
  | orig (n : Nat)
deriving DecidableEq

/-- One iteration of the splice loop of `try_to_tokens` (lines 73-87): the
implementation is inserted at position 0, then the trait declaration at
position 0. -/
def spliceStep (body : List BodyStmt) (p : TraitDef × TraitImpl) : List BodyStmt :=
  .traitDecl p.1 :: .implDecl p.2 :: body

/-- Translation of the trait-splicing step of `try_to_tokens`: when any trait
was synthesized, each trait/impl pair is inserted at the head of the body of
the function being generated. -/
def NapiFn.genUserBody (f : NapiFn) (body : List BodyStmt) : List BodyStmt :=
  let g := f.genArgConversions
  if g.traitDefs.isEmpty then body
  else (g.traitDefs.zip g.traitImpls).foldl spliceStep body

/-! ### Semantics of the generated code

The generated code is interpreted against an abstract host runtime.  A `Host`
bundles the oracles for everything the generated code calls into the napi
layer; the interpreter mirrors, statement by statement, the Rust the generator
emits. -/

/-- An observable step performed by the generated code while it runs. -/
inductive Event where
  | fetchThisEv
  | validateEv (slot : Nat)
  | convertEv (slot : Nat)
  | assertEv (slot : Nat)
  | nativeCallEv
  | retConvertEv
  | constructEv
  | factoryEv
  | unitConvertEv
  | throwEv (e : Err)
deriving DecidableEq

/-- Modelled from the spec: the host-runtime operations invoked by the
generated code (`CallbackInfo`, the `FromNapiValue`/`ToNapiValue` conversion
traits, `ValidateNapiValue`, `assert_type_of!`, `Reference::from_value_ptr`
and the native function itself are all declared outside the provided sources).
Each oracle is indexed by the call-frame slot it reads where applicable. -/
structure Host where
  frameInit : Nat → Option Err
  thisVal : JsVal
  unwrapRaw : Option Err
  validate : Nat → Except Err JsVal
  fromOwned : Nat → Except Err NativeVal
  fromRef : Nat → Except Err NativeVal
  fromMutRef : Nat → Except Err NativeVal
  debug : Bool
  assertFnType : Nat → Option Err
  closureVal : Nat → NativeVal
  envVal : NativeVal
  refFromPtr : Except Err NativeVal
  callResult : List NativeVal → Except Err NativeVal
  callValue : List NativeVal → NativeVal
  constructRes : NativeVal → Except Err JsVal
  factoryRes : NativeVal → Except Err JsVal
  toNapi : NativeVal → Except Err JsVal
  unitVal : JsVal
  promiseVal : JsVal

/-- Local bindings `arg{i}` produced by the conversion statements. -/
abbrev Bindings := Nat → Option NativeVal

def emptyBindings : Bindings := fun _ => none

def updateB (b : Bindings) (i : Nat) (v : NativeVal) : Bindings :=
  fun j => if j = i then some v else b j

/-- Result of running a prefix of the generated closure body: continue with
updated bindings, return early from the closure with `Ok(sentinel)` (the
strict-mode validation escape), or propagate an error (`?`). -/
inductive StepRes (α : Type) where
  | ok (v : α)
  | early (v : JsVal)
  | err (e : Err)

/-- Interpretation of one conversion statement against the host. -/
def evalConvStmt (h : Host) (b : Bindings) : ConvStmt → StepRes Bindings × List Event
  | .fetchThis _ _ =>
    match h.unwrapRaw with
    | some e => (.err e, [.fetchThisEv])
    | none => (.ok b, [.fetchThisEv])
  | .mutRefConv i _ =>
    match h.fromMutRef i with
    | .error e => (.err e, [.convertEv i])
    | .ok v => (.ok (updateB b i v), [.convertEv i])
  | .refConv i _ =>
    match h.fromRef i with
    | .error e => (.err e, [.convertEv i])
    | .ok v => (.ok (updateB b i v), [.convertEv i])
  | .ownedConv i _ strict =>
    if strict then
      match h.validate i with
      | .error e => (.err e, [.validateEv i])
      | .ok s =>
        if s = JsVal.nullPtr then
          match h.fromOwned i with
          | .error e => (.err e, [.validateEv i, .convertEv i])
          | .ok v => (.ok (updateB b i v), [.validateEv i, .convertEv i])
        else (.early s, [.validateEv i])
    else
      match h.fromOwned i with
      | .error e => (.err e, [.convertEv i])
      | .ok v => (.ok (updateB b i v), [.convertEv i])
  | .cbConv i _ =>
    if h.debug then
      match h.assertFnType i with
      | some e => (.err e, [.assertEv i])
      | none => (.ok (updateB b i (h.closureVal i)), [.assertEv i])
    else (.ok (updateB b i (h.closureVal i)), [])

/-- Interpretation of a list of conversion statements, short-circuiting on an
early return or an error. -/
def evalConvs (h : Host) (b : Bindings) : List ConvStmt → StepRes Bindings × List Event
  | [] => (.ok b, [])
  | s :: rest =>
    match evalConvStmt h b s with
    | (.ok b', evs) =>
      let r := evalConvs h b' rest
      (r.1, evs ++ r.2)
    | (.early v, evs) => (.early v, evs)
    | (.err e, evs) => (.err e, evs)

/-- Interpretation of one call-site argument expression. -/
def evalArg (h : Host) (b : Bindings) : ArgExpr → Except Err NativeVal
  | .envExpr => .ok h.envVal
  | .thisReference => h.refFromPtr
  | .ident i => .ok ((b i).getD 0)

/-- Interpretation of the call-site argument list, left to right. -/
def evalArgs (h : Host) (b : Bindings) : List ArgExpr → Except Err (List NativeVal)
  | [] => .ok []
  | a :: rest =>
    match evalArg h b a with
    | .error e => .error e
    | .ok v =>
      match evalArgs h b rest with
      | .error e => .error e
      | .ok vs => .ok (v :: vs)

/-- Interpretation of a return assembly, given the native result `_ret`.
`unitConvert` deliberately ignores `_ret`, matching the emitted
`to_napi_value(env, ())` which never inspects the bound value. -/
def evalRetAssembly (h : Host) (r : Except Err NativeVal) :
    RetAssembly → Except Err JsVal × List Event
  | .construct _ =>
    match r with
    | .error e => (.error e, [])
    | .ok v => (h.constructRes v, [.constructEv])
  | .factoryAsm _ =>
    match r with
    | .error e => (.error e, [])
    | .ok v => (h.factoryRes v, [.factoryEv])
  | .asyncConvert =>
    match r with
    | .error e => (.error e, [])
    | .ok v => (h.toNapi v, [.retConvertEv])
  | .returnSelfFallible =>
    match r with
    | .error e => (.error e, [])
    | .ok _ => (.ok h.thisVal, [])
  | .fallibleMatch =>
    match r with
    | .error e => (.ok JsVal.nullPtr, [.throwEv e])
    | .ok v => (h.toNapi v, [.retConvertEv])
  | .returnSelf =>
    match r with
    | .error e => (.error e, [])
    | .ok _ => (.ok h.thisVal, [])
  | .convertDirect =>
    match r with
    | .error e => (.error e, [])
    | .ok v => (h.toNapi v, [.retConvertEv])
  | .unitConvert => (.ok h.unitVal, [.unitConvertEv])

/-- Outcome of the deferred task created for an asynchronous call: the
externally visible deferred value either fulfills or rejects, with the events
performed by the completion path. -/
inductive DeferredOutcome where
  | resolved (v : JsVal) (events : List Event)
  | rejected (e : Err) (events : List Event)
deriving DecidableEq

/-- Modelled from the spec: `execute_tokio_future` (declared outside the
provided sources) runs the future on the task executor and schedules a
completion handler back on the runtime thread: a future failure rejects the
externally visible deferred value, a success runs the completion handler whose
own failure also rejects it; nothing is unwrapped inline.  The future built by
`try_to_tokens` evaluates the argument expressions and the native call. -/
def asyncDeferred (h : Host) (b : Bindings) (argEs : List ArgExpr) (wrapOk : Bool)
    (ret : RetAssembly) : DeferredOutcome :=
  match evalArgs h b argEs with
  | .error e => .rejected e []
  | .ok vals =>
    let r : Except Err NativeVal :=
      if wrapOk then .ok (h.callValue vals) else h.callResult vals
    match r with
    | .error e => .rejected e [.nativeCallEv]
    | .ok v =>
      match evalRetAssembly h (.ok v) ret with
      | (.ok j, hevs) => .resolved j (Event.nativeCallEv :: hevs)
      | (.error e, hevs) => .rejected e (Event.nativeCallEv :: hevs)

/-- Interpretation of the native call: a synchronous call evaluates the
arguments, runs the native function and assembles the return inline; an
asynchronous call immediately returns the deferred handle and packages the
rest as a `DeferredOutcome`. -/
def evalNativeCall (h : Host) (b : Bindings) :
    NativeCall → Except Err JsVal × List Event × Option DeferredOutcome
  | .sync fallible _ argEs ret =>
    match evalArgs h b argEs with
    | .error e => (.error e, [], none)
    | .ok vals =>
      let r : Except Err NativeVal :=
        if fallible then h.callResult vals else .ok (h.callValue vals)
      let a := evalRetAssembly h r ret
      (a.1, Event.nativeCallEv :: a.2, none)
  | .asyncCall wrapOk _ argEs ret =>
    (.ok h.promiseVal, [], some (asyncDeferred h b argEs wrapOk ret))

/-- Result of the `function_call` dispatch expression: an ordinary `Ok` value,
an abrupt `return` bypassing the result machinery (the factory-guard path),
or an `Err` propagated to the outermost handler. -/
inductive DispatchRes where
  | ok (v : JsVal)
  | abrupt (v : JsVal)
  | err (e : Err)
deriving DecidableEq

/-- Interpretation of the framed path: construct the call-frame accessor
(`CallbackInfo::new`), run the conversions inside the `and_then` closure, then
the native call. -/
def evalFramed (h : Host) (argsLen : Nat) (convs : List ConvStmt) (nc : NativeCall) :
    DispatchRes × List Event × Option DeferredOutcome :=
  match h.frameInit argsLen with
  | some e => (.err e, [], none)
  | none =>
    match evalConvs h emptyBindings convs with
    | (.early v, evs) => (.ok v, evs, none)
    | (.err e, evs) => (.err e, evs, none)
    | (.ok b, evs) =>
      let (r, evs2, d) := evalNativeCall h b nc
      match r with
      | .ok v => (.ok v, evs ++ evs2, d)
      | .error e => (.err e, evs ++ evs2, d)

/-- Interpretation of the `function_call` dispatch.  The constructor path
checks the factory-guard flag first and returns a null handle abruptly when it
is set, before the call-frame accessor is built and before any conversion. -/
def evalFunctionCall (h : Host) (guard : Bool) :
    FunctionCall → DispatchRes × List Event × Option DeferredOutcome
  | .direct nc =>
    let (r, evs, d) := evalNativeCall h emptyBindings nc
    match r with
    | .ok v => (.ok v, evs, d)
    | .error e => (.err e, evs, d)
  | .guarded argsLen convs nc =>
    if guard then (.abrupt JsVal.nullPtr, [], none)
    else evalFramed h argsLen convs nc
  | .framed argsLen convs nc => evalFramed h argsLen convs nc

/-- Observable outcome of one invocation of the ABI entry point: the returned
value handle, the events performed synchronously, and the deferred outcome for
asynchronous calls. -/
structure Outcome where
  retVal : JsVal
  events : List Event
  deferred : Option DeferredOutcome
deriving DecidableEq

/-- The outermost `unwrap_or_else` of the generated `extern "C"` entry point:
an unhandled failure is converted into `JsError::throw_into` plus a null
handle; successes and abrupt returns pass their handle through. -/
def entryWrap : DispatchRes × List Event × Option DeferredOutcome → Outcome
  | (.ok v, evs, d) => ⟨v, evs, d⟩
  | (.abrupt v, evs, d) => ⟨v, evs, d⟩
  | (.err e, evs, d) => ⟨JsVal.nullPtr, evs ++ [.throwEv e], d⟩

/-- Generate and run the ABI entry point for descriptor `f` against host `h`
with the factory-guard flag set to `guard`; `none` when generation fails. -/
def runEntry (f : NapiFn) (h : Host) (guard : Bool) : Option Outcome :=
  (f.genFunctionCall).map fun fc => entryWrap (evalFunctionCall h guard fc)

/-- The exceptions thrown into the environment during one invocation. -/
def Outcome.thrown (o : Outcome) : List Err :=
  o.events.filterMap fun ev =>
    match ev with
    | .throwEv e => some e
    | _ => none

/-! ### Structural lemmas about the argument loop -/

/-- A parameter is slot-free (`skipped_arg_count` is incremented for it) when
it is the environment handle or an owner-reference parameter. -/
def isSkipArg (parent : Option String) : NapiFnArgKind → Bool
  | .patType ty => isEnvTy ty || isOwnerRefTy parent ty
  | .callback _ => false

/-- Number of slot-consuming parameters in a list. -/
def consumingCount (parent : Option String) : List NapiFnArgKind → Nat
  | [] => 0
  | a :: rest => (if isSkipArg parent a then 0 else 1) + consumingCount parent rest

/-- The non-pure callback descriptors of a parameter list, in order. -/
def nonPureCbs : List NapiFnArgKind → List CallbackArg
  | [] => []
  | .callback cb :: rest => if cb.pureFn then nonPureCbs rest else cb :: nonPureCbs rest
  | .patType _ :: rest => nonPureCbs rest

/-- Variant of `NapiFn.argsLoop` that carries the call-frame slot directly
instead of the pair (enumeration index, skipped count); the bridge lemma
`argsLoop_eq_argsLoopS` shows it computes the same result. -/
def NapiFn.argsLoopS (f : NapiFn) : List NapiFnArgKind → Nat → Nat → GenArgs
  | [], _, _ => ⟨[], [], [], []⟩
  | a :: rest, slot, tc =>
    match a with
    | .patType ty =>
      if isEnvTy ty then
        let g := f.argsLoopS rest slot tc
        { g with argExprs := .envExpr :: g.argExprs }
      else if isOwnerRefTy f.parent ty then
        let g := f.argsLoopS rest slot tc
        { g with argExprs := .thisReference :: g.argExprs }
      else
        let g := f.argsLoopS rest (slot + 1) tc
        { g with
            convs := f.genTyArgConversion slot ty :: g.convs
            argExprs := .ident slot :: g.argExprs }
    | .callback cb =>
      if cb.pureFn then
        let g := f.argsLoopS rest (slot + 1) tc
        { g with
            convs := .cbConv slot cb :: g.convs
            argExprs := .ident slot :: g.argExprs }
      else
        let g := f.argsLoopS rest (slot + 1) (tc + 1)
        { g with
            convs := .cbConv slot cb :: g.convs
            argExprs := .ident slot :: g.argExprs
            traitDefs := mkTraitDef tc cb :: g.traitDefs
            traitImpls := mkTraitImpl tc cb :: g.traitImpls }

/-- Componentwise concatenation of two generator outputs. -/
def GenArgs.append (g1 g2 : GenArgs) : GenArgs :=
  ⟨g1.convs ++ g2.convs, g1.argExprs ++ g2.argExprs,
   g1.traitDefs ++ g2.traitDefs, g1.traitImpls ++ g2.traitImpls⟩

/-- The call-frame slot read by a conversion statement (`fetchThis` reads none). -/
def stmtSlot : ConvStmt → Option Nat
  | .fetchThis _ _ => none
  | .mutRefConv i _ => some i
  | .refConv i _ => some i
  | .ownedConv i _ _ => some i
  | .cbConv i _ => some i

/-- The ordered list of call-frame slots read by a list of conversion statements. -/
def convSlots (l : List ConvStmt) : List Nat := l.filterMap stmtSlot

/-- The synthesized declarations inserted ahead of the original body by the
splice loop, in their final order. -/
def synthItems (l : List (TraitDef × TraitImpl)) : List BodyStmt :=
  l.foldl spliceStep []

/-- A body statement is a synthesized declaration (not an original statement). -/
def isSynthDecl : BodyStmt → Bool
  | .orig _ => false
  | _ => true

/-- An `Owned` `Value` parameter in the strict sense used by the amended
round-trip claim: a typed pattern that is not a Rust reference, not the
environment handle and not an owner-reference parameter. -/
def isOwnedValueArg (parent : Option String) : NapiFnArgKind → Bool
  | .patType (Ty.path hd fg) =>
      !isEnvTy (Ty.path hd fg) && !isOwnerRefTy parent (Ty.path hd fg)
  | _ => false

/-- An `Owned` `Value` parameter exactly as the spec data model words it
(`Value(type, Owned)`): a typed pattern that is not a Rust reference and not
the environment handle; owner-reference parameters are *not* excluded. -/
def specOwnedValue : NapiFnArgKind → Bool
  | .patType (Ty.path hd fg) => !isEnvTy (Ty.path hd fg)
  | _ => false

/-- Whether a conversion-statement list contains the receiver-recovery
statement binding `this_ptr`. -/
def hasFetchThis (l : List ConvStmt) : Bool :=
  l.any fun s =>
    match s with
    | .fetchThis _ _ => true
    | _ => false

/-! ### Concrete descriptors and hosts used by witnesses and counterexamples -/

def tyI32 : Ty := .path "i32" none

def tyEnvParam : Ty := .path "Env" none

def tyStrT : Ty := .path "String" none

def tyRetSelf : Ty := .refTy false (.path "Self" none)

/-- A benign host whose oracles all succeed with distinguishable values. -/
def host0 : Host where
  frameInit := fun _ => none
  thisVal := JsVal.handle 100
  unwrapRaw := none
  validate := fun _ => .ok JsVal.nullPtr
  fromOwned := fun i => .ok (i + 10)
  fromRef := fun i => .ok (i + 20)
  fromMutRef := fun i => .ok (i + 30)
  debug := false
  assertFnType := fun _ => none
  closureVal := fun i => i + 40
  envVal := 99
  refFromPtr := .ok 98
  callResult := fun vals => .ok (vals.foldl (fun a b => a + b) 0)
  callValue := fun vals => vals.length
  constructRes := fun v => .ok (JsVal.handle v)
  factoryRes := fun v => .ok (JsVal.handle (v + 1))
  toNapi := fun v => .ok (JsVal.handle (v + 2))
  unitVal := JsVal.handle 0
  promiseVal := JsVal.handle 77

/-- Host whose call-frame accessor construction fails with error 3. -/
def hostFrameFail : Host := { host0 with frameInit := fun _ => some 3 }

/-- Host whose strict validation reports a non-null sentinel on every slot. -/
def hostSentinel : Host := { host0 with validate := fun _ => .ok (JsVal.handle 5) }

/-- Host whose instance-handle binding fails, for the counterexample on the
async constructor assembly. -/
def hostCex : Host := { host0 with constructRes := fun _ => .error 7 }

/-- Descriptor `[Env, i32, i32]` from the spec's slot-indexing example. -/
def exC3 : NapiFn :=
  { name := "add", jsName := "add", kind := .plain, fnSelf := none, parent := none,
    args := [.patType tyEnvParam, .patType tyI32, .patType tyI32],
    ret := some tyI32, isRetResult := false, isAsync := false, strict := false }

/-- A sync fallible method whose declared return type is `&Self`. -/
def fC1w : NapiFn :=
  { name := "m", jsName := "m", kind := .plain, fnSelf := some .ref, parent := some "K",
    args := [], ret := some tyRetSelf, isRetResult := true, isAsync := false,
    strict := false }

/-- A constructor descriptor with one owned argument. -/
def fC2w : NapiFn :=
  { name := "new", jsName := "K", kind := .constructor, fnSelf := none,
    parent := some "K", args := [.patType tyI32], ret := some tyI32,
    isRetResult := false, isAsync := false, strict := false }

/-- A strict descriptor with a single owned argument. -/
def fC4w : NapiFn :=
  { name := "f", jsName := "f", kind := .plain, fnSelf := none, parent := none,
    args := [.patType tyI32], ret := some tyI32, isRetResult := false,
    isAsync := false, strict := true }

/-- An async fallible plain function returning a `String`. -/
def fC6w : NapiFn :=
  { name := "g", jsName := "g", kind := .plain, fnSelf := none, parent := none,
    args := [], ret := some tyStrT, isRetResult := true, isAsync := true,
    strict := false }

/-- An async fallible constructor: the input refuting the universally-stated
async return-assembly clause. -/
def fC6cex : NapiFn :=
  { name := "mk", jsName := "Mk", kind := .constructor, fnSelf := none,
    parent := some "K", args := [], ret := some tyI32, isRetResult := true,
    isAsync := true, strict := false }

/-- A plain function with one owned argument, used to drive the outer
error-to-exception wrapper. -/
def fC7w : NapiFn :=
  { name := "f", jsName := "f", kind := .plain, fnSelf := none, parent := none,
    args := [.patType tyI32], ret := none, isRetResult := false, isAsync := false,
    strict := false }

/-- A method receiver example for receiver resolution. -/
def fC8w : NapiFn :=
  { name := "m", jsName := "m", kind := .plain, fnSelf := some .ref,
    parent := some "K", args := [], ret := none, isRetResult := false,
    isAsync := false, strict := false }

/-- A plain two-argument function of owned values. -/
def fC9w : NapiFn :=
  { name := "add", jsName := "add", kind := .plain, fnSelf := none, parent := none,
    args := [.patType tyI32, .patType tyI32], ret := some tyI32,
    isRetResult := false, isAsync := false, strict := false }

/-- A static method (owner present, receiver `None`) taking an owner-reference
parameter: the input refuting the unamended round-trip claim. -/
def fC9cex : NapiFn :=
  { name := "s", jsName := "s", kind := .plain, fnSelf := none, parent := some "A",
    args := [.patType (Ty.path "Reference" (some "A"))], ret := none,
    isRetResult := false, isAsync := false, strict := false }

/-- A non-pure callback descriptor. -/
def cbNonPure : CallbackArg :=
  { args := [tyI32], ret := some tyI32, rawRet := some tyI32, pureFn := false,
    genericName := "T" }

/-- A plain function taking one non-pure callback parameter. -/
def fC5w : NapiFn :=
  { name := "h", jsName := "h", kind := .plain, fnSelf := none, parent := none,
    args := [.callback cbNonPure], ret := none, isRetResult := false,
    isAsync := false, strict := false }

/-- The same owner-reference shape used to exhibit the scoping precondition. -/
def fC10w : NapiFn :=
  { name := "m", jsName := "m", kind := .plain, fnSelf := none, parent := some "A",
    args := [.patType (Ty.path "Reference" (some "A"))], ret := none,
    isRetResult := false, isAsync := false, strict := false }

/-! ### Structural theorems -/

theorem argsLoop_eq_argsLoopS (f : NapiFn) :
    ∀ (args : List NapiFnArgKind) (idx skipped tc : Nat), skipped ≤ idx →
      f.argsLoop args idx skipped tc = f.argsLoopS args (idx - skipped) tc := by
  intro args
  induction args with
  | nil => intro idx skipped tc _; rfl
  | cons a rest ih =>
    intro idx skipped tc hle
    have h1 : idx + 1 - (skipped + 1) = idx - skipped := by omega
    have h2 : idx + 1 - skipped = idx - skipped + 1 := by omega
    cases a with
    | patType ty =>
      by_cases he : isEnvTy ty
      · simp [NapiFn.argsLoop, NapiFn.argsLoopS, he,
          ih (idx + 1) (skipped + 1) tc (by omega), h1]
      · by_cases ho : isOwnerRefTy f.parent ty
        · simp [NapiFn.argsLoop, NapiFn.argsLoopS, he, ho,
            ih (idx + 1) (skipped + 1) tc (by omega), h1]
        · simp [NapiFn.argsLoop, NapiFn.argsLoopS, he, ho,
            ih (idx + 1) skipped tc (by omega), h2]
    | callback cb =>
      by_cases hp : cb.pureFn
      · simp [NapiFn.argsLoop, NapiFn.argsLoopS, hp,
          ih (idx + 1) skipped tc (by omega), h2]
      · simp [NapiFn.argsLoop, NapiFn.argsLoopS, hp,
          ih (idx + 1) skipped (tc + 1) (by omega), h2]

theorem genArgConversions_eq_loopS (f : NapiFn) :
    f.genArgConversions =
      { f.argsLoopS f.args 0 0 with
          convs := f.thisStmts ++ (f.argsLoopS f.args 0 0).convs } := by
  unfold NapiFn.genArgConversions
  rw [argsLoop_eq_argsLoopS f f.args 0 0 0 (Nat.le_refl 0)]

theorem GenArgs.nil_append (g : GenArgs) : GenArgs.append ⟨[], [], [], []⟩ g = g := by
  cases g; simp [GenArgs.append]

theorem argsLoopS_append (f : NapiFn) :
    ∀ (l r : List NapiFnArgKind) (slot tc : Nat),
      f.argsLoopS (l ++ r) slot tc =
        GenArgs.append (f.argsLoopS l slot tc)
          (f.argsLoopS r (slot + consumingCount f.parent l)
            (tc + (nonPureCbs l).length)) := by
  intro l
  induction l with
  | nil =>
    intro r slot tc
    simp [NapiFn.argsLoopS, consumingCount, nonPureCbs, GenArgs.nil_append]
  | cons a rest ih =>
    intro r slot tc
    have hs : slot + 1 + consumingCount f.parent rest
        = slot + (1 + consumingCount f.parent rest) := by omega
    have ht : tc + 1 + (nonPureCbs rest).length
        = tc + ((nonPureCbs rest).length + 1) := by omega
    cases a with
    | patType ty =>
      by_cases he : isEnvTy ty
      · have hskip : isSkipArg f.parent (NapiFnArgKind.patType ty) = true := by
          simp [isSkipArg, he]
        simp [NapiFn.argsLoopS, he, consumingCount, nonPureCbs, hskip,
          GenArgs.append, ih r slot tc]
      · by_cases ho : isOwnerRefTy f.parent ty
        · have hskip : isSkipArg f.parent (NapiFnArgKind.patType ty) = true := by
            simp [isSkipArg, he, ho]
          simp [NapiFn.argsLoopS, he, ho, consumingCount, nonPureCbs, hskip,
            GenArgs.append, ih r slot tc]
        · have hskip : isSkipArg f.parent (NapiFnArgKind.patType ty) = false := by
            simp [isSkipArg, he, ho]
          simp [NapiFn.argsLoopS, he, ho, consumingCount, nonPureCbs, hskip,
            GenArgs.append, ih r (slot + 1) tc, hs]
    | callback cb =>
      have hskip : isSkipArg f.parent (NapiFnArgKind.callback cb) = false := rfl
      by_cases hp : cb.pureFn
      · simp [NapiFn.argsLoopS, hp, consumingCount, nonPureCbs, hskip,
          GenArgs.append, ih r (slot + 1) tc, hs]
      · simp [NapiFn.argsLoopS, hp, consumingCount, nonPureCbs, hskip,
          GenArgs.append, ih r (slot + 1) (tc + 1), hs, ht]

theorem stmtSlot_genTyArgConversion (f : NapiFn) (i : Nat) (ty : Ty) :
    stmtSlot (f.genTyArgConversion i ty) = some i := by
  cases ty with
  | path hd fg => rfl
  | refTy m e => cases m <;> rfl

theorem convSlots_argsLoopS (f : NapiFn) :
    ∀ (args : List NapiFnArgKind) (slot tc : Nat),
      convSlots (f.argsLoopS args slot tc).convs
        = List.range' slot (consumingCount f.parent args) := by
  intro args
  induction args with
  | nil => intro slot tc; simp [NapiFn.argsLoopS, consumingCount, convSlots]
  | cons a rest ih =>
    intro slot tc
    have h1 : (1 : Nat) + consumingCount f.parent rest
        = consumingCount f.parent rest + 1 := by omega
    cases a with
    | patType ty =>
      by_cases he : isEnvTy ty
      · have hskip : isSkipArg f.parent (NapiFnArgKind.patType ty) = true := by
          simp [isSkipArg, he]
        have ihf := ih slot tc
        simp only [convSlots] at ihf
        simp [NapiFn.argsLoopS, he, consumingCount, hskip, convSlots, ihf]
      · by_cases ho : isOwnerRefTy f.parent ty
        · have hskip : isSkipArg f.parent (NapiFnArgKind.patType ty) = true := by
            simp [isSkipArg, he, ho]
          have ihf := ih slot tc
          simp only [convSlots] at ihf
          simp [NapiFn.argsLoopS, he, ho, consumingCount, hskip, convSlots, ihf]
        · have hskip : isSkipArg f.parent (NapiFnArgKind.patType ty) = false := by
            simp [isSkipArg, he, ho]
          have ihf := ih (slot + 1) tc
          simp only [convSlots] at ihf
          simp [NapiFn.argsLoopS, he, ho, consumingCount, hskip, convSlots,
            stmtSlot_genTyArgConversion, h1, List.range'_succ, ihf]
    | callback cb =>
      have hskip : isSkipArg f.parent (NapiFnArgKind.callback cb) = false := rfl
      by_cases hp : cb.pureFn
      · have ihf := ih (slot + 1) tc
        simp only [convSlots] at ihf
        simp [NapiFn.argsLoopS, hp, consumingCount, hskip, convSlots, stmtSlot,
          h1, List.range'_succ, ihf]
      · have ihf := ih (slot + 1) (tc + 1)
        simp only [convSlots] at ihf
        simp [NapiFn.argsLoopS, hp, consumingCount, hskip, convSlots, stmtSlot,
          h1, List.range'_succ, ihf]

theorem convSlots_thisStmts (f : NapiFn) : convSlots f.thisStmts = [] := by
  unfold NapiFn.thisStmts
  rcases f.parent with _ | p <;> rcases f.fnSelf with _ | s
  · rfl
  · cases s <;> rfl
  · rfl
  · cases s <;> rfl

/-! ### Lemmas about running conversion lists -/

theorem evalConvs_append_ok (h : Host) :
    ∀ (xs : List ConvStmt) (b b' : Bindings) (evs : List Event),
      evalConvs h b xs = (.ok b', evs) →
      ∀ ys, evalConvs h b (xs ++ ys)
        = ((evalConvs h b' ys).1, evs ++ (evalConvs h b' ys).2) := by
  intro xs
  induction xs with
  | nil =>
    intro b b' evs hx ys
    simp only [evalConvs] at hx
    obtain ⟨h1, h2⟩ := Prod.mk.injEq .. ▸ hx
    cases h1
    cases h2
    simp
  | cons s rest ih =>
    intro b b' evs hx ys
    simp only [evalConvs, List.cons_append] at hx ⊢
    rcases hs : evalConvStmt h b s with ⟨res, e1⟩
    rw [hs] at hx
    cases res with
    | ok b1 =>
      simp only [Prod.mk.injEq] at hx
      obtain ⟨hx1, hx2⟩ := hx
      rcases hr : evalConvs h b1 rest with ⟨res2, e2⟩
      rw [hr] at hx1 hx2
      cases res2 with
      | ok b2 =>
        simp only [StepRes.ok.injEq] at hx1
        subst hx1
        subst hx2
        show ((evalConvs h b1 (rest ++ ys)).1, e1 ++ (evalConvs h b1 (rest ++ ys)).2)
            = ((evalConvs h b2 ys).1, e1 ++ e2 ++ (evalConvs h b2 ys).2)
        rw [ih b1 b2 e2 hr ys]
        simp [List.append_assoc]
      | early v => simp at hx1
      | err e => simp at hx1
    | early v => simp at hx
    | err e => simp at hx

theorem evalConvs_append_early (h : Host) :
    ∀ (xs : List ConvStmt) (b : Bindings) (v : JsVal) (evs : List Event),
      evalConvs h b xs = (.early v, evs) →
      ∀ ys, evalConvs h b (xs ++ ys) = (.early v, evs) := by
  intro xs
  induction xs with
  | nil =>
    intro b v evs hx ys
    simp only [evalConvs] at hx
    exact absurd (congrArg Prod.fst hx) (by simp)
  | cons s rest ih =>
    intro b v evs hx ys
    simp only [evalConvs, List.cons_append] at hx ⊢
    rcases hs : evalConvStmt h b s with ⟨res, e1⟩
    rw [hs] at hx
    cases res with
    | ok b1 =>
      simp only [Prod.mk.injEq] at hx
      obtain ⟨hx1, hx2⟩ := hx
      rcases hr : evalConvs h b1 rest with ⟨res2, e2⟩
      rw [hr] at hx1 hx2
      cases res2 with
      | ok b2 => simp at hx1
      | early v2 =>
        simp only [StepRes.early.injEq] at hx1
        subst hx1
        subst hx2
        show ((evalConvs h b1 (rest ++ ys)).1, e1 ++ (evalConvs h b1 (rest ++ ys)).2)
            = (StepRes.early v2, e1 ++ e2)
        rw [ih b1 v2 e2 hr ys]
      | err e => simp at hx1
    | early v2 =>
      simp only [Prod.mk.injEq, StepRes.early.injEq] at hx
      obtain ⟨hx1, hx2⟩ := hx
      subst hx1
      subst hx2
      rfl
    | err e => simp at hx

/-- Every event produced by running a list of conversion statements is either
the receiver-recovery event or a validate/convert/assert event on a slot read
by one of those statements; in particular no native call and no throw occurs
during argument conversion. -/
theorem evalConvStmt_events (h : Host) (b : Bindings) (s : ConvStmt) :
    ∀ ev ∈ (evalConvStmt h b s).2,
      ev = Event.fetchThisEv ∨
        ∃ i, stmtSlot s = some i ∧
          (ev = Event.validateEv i ∨ ev = Event.convertEv i ∨ ev = Event.assertEv i) := by
  cases s with
  | fetchThis m p => cases hu : h.unwrapRaw <;> simp [evalConvStmt, hu]
  | mutRefConv i e => cases hr : h.fromMutRef i <;> simp [evalConvStmt, hr, stmtSlot]
  | refConv i e => cases hr : h.fromRef i <;> simp [evalConvStmt, hr, stmtSlot]
  | ownedConv i ty strictb =>
    cases strictb with
    | false => cases hr : h.fromOwned i <;> simp [evalConvStmt, hr, stmtSlot]
    | true =>
      rcases hv : h.validate i with e | sv
      · simp [evalConvStmt, hv, stmtSlot]
      · by_cases hnull : sv = JsVal.nullPtr
        · cases hr : h.fromOwned i <;>
            simp [evalConvStmt, hv, hnull, hr, stmtSlot]
        · simp [evalConvStmt, hv, hnull, stmtSlot]
  | cbConv i cb =>
    cases hd : h.debug with
    | false => simp [evalConvStmt, hd]
    | true => cases ha : h.assertFnType i <;> simp [evalConvStmt, hd, ha, stmtSlot]

theorem evalConvs_events (h : Host) :
    ∀ (stmts : List ConvStmt) (b : Bindings), ∀ ev ∈ (evalConvs h b stmts).2,
      ev = Event.fetchThisEv ∨
        ∃ i, (∃ s ∈ stmts, stmtSlot s = some i) ∧
          (ev = Event.validateEv i ∨ ev = Event.convertEv i ∨ ev = Event.assertEv i) := by
  intro stmts
  induction stmts with
  | nil => intro b ev hev; simp [evalConvs] at hev
  | cons s rest ih =>
    intro b ev hev
    simp only [evalConvs] at hev
    rcases hs : evalConvStmt h b s with ⟨res, e1⟩
    rw [hs] at hev
    have hstep : ∀ ev ∈ e1,
        ev = Event.fetchThisEv ∨
          ∃ i, stmtSlot s = some i ∧
            (ev = Event.validateEv i ∨ ev = Event.convertEv i ∨ ev = Event.assertEv i) := by
      intro ev hev
      have := evalConvStmt_events h b s ev (by rw [hs]; exact hev)
      exact this
    cases res with
    | ok b1 =>
      have hev2 : ev ∈ e1 ++ (evalConvs h b1 rest).2 := hev
      rcases List.mem_append.mp hev2 with h1 | h2
      · rcases hstep ev h1 with hh | ⟨i, hsi, hor⟩
        · exact Or.inl hh
        · exact Or.inr ⟨i, ⟨s, List.mem_cons_self s rest, hsi⟩, hor⟩
      · rcases ih b1 ev h2 with hh | ⟨i, ⟨s', hs', hsi⟩, hor⟩
        · exact Or.inl hh
        · exact Or.inr ⟨i, ⟨s', List.mem_cons_of_mem _ hs', hsi⟩, hor⟩
    | early v =>
      rcases hstep ev hev with hh | ⟨i, hsi, hor⟩
      · exact Or.inl hh
      · exact Or.inr ⟨i, ⟨s, List.mem_cons_self s rest, hsi⟩, hor⟩
    | err e =>
      rcases hstep ev hev with hh | ⟨i, hsi, hor⟩
      · exact Or.inl hh
      · exact Or.inr ⟨i, ⟨s, List.mem_cons_self s rest, hsi⟩, hor⟩

/-! ### Lemmas about synthesized traits and splicing -/

theorem argsLoopS_traits (f : NapiFn) :
    ∀ (args : List NapiFnArgKind) (slot tc : Nat),
      (f.argsLoopS args slot tc).traitDefs
          = List.zipWith mkTraitDef (List.range' tc (nonPureCbs args).length) (nonPureCbs args)
        ∧ (f.argsLoopS args slot tc).traitImpls
          = List.zipWith mkTraitImpl (List.range' tc (nonPureCbs args).length) (nonPureCbs args) := by
  intro args
  induction args with
  | nil => intro slot tc; simp [NapiFn.argsLoopS, nonPureCbs]
  | cons a rest ih =>
    intro slot tc
    cases a with
    | patType ty =>
      by_cases he : isEnvTy ty
      · simpa [NapiFn.argsLoopS, he, nonPureCbs] using ih slot tc
      · by_cases ho : isOwnerRefTy f.parent ty
        · simpa [NapiFn.argsLoopS, he, ho, nonPureCbs] using ih slot tc
        · simpa [NapiFn.argsLoopS, he, ho, nonPureCbs] using ih (slot + 1) tc
    | callback cb =>
      by_cases hp : cb.pureFn
      · simpa [NapiFn.argsLoopS, hp, nonPureCbs] using ih (slot + 1) tc
      · have := ih (slot + 1) (tc + 1)
        simp [NapiFn.argsLoopS, hp, nonPureCbs, List.range'_succ, this]

theorem map_nameIdx_zipWith :
    ∀ (ks : List Nat) (cbs : List CallbackArg), ks.length = cbs.length →
      (List.zipWith mkTraitDef ks cbs).map TraitDef.nameIdx = ks := by
  intro ks
  induction ks with
  | nil => intro cbs _; simp
  | cons k ks ih =>
    intro cbs hlen
    cases cbs with
    | nil => simp at hlen
    | cons cb cbs =>
      simp only [List.length_cons, Nat.add_right_cancel_iff] at hlen
      simp [mkTraitDef, ih cbs hlen]

theorem name_of_mem_zipWith :
    ∀ (ks : List Nat) (cbs : List CallbackArg) (d : TraitDef),
      d ∈ List.zipWith mkTraitDef ks cbs →
      d.name = "FunctionCall" ++ toString d.nameIdx := by
  intro ks
  induction ks with
  | nil => intro cbs d hd; simp at hd
  | cons k ks ih =>
    intro cbs d hd
    cases cbs with
    | nil => simp at hd
    | cons cb cbs =>
      rcases List.mem_cons.mp hd with hh | hh
      · subst hh; rfl
      · exact ih cbs d hh

theorem implName_of_mem_zipWith :
    ∀ (ks : List Nat) (cbs : List CallbackArg) (t : TraitImpl),
      t ∈ List.zipWith mkTraitImpl ks cbs →
      t.traitName = "FunctionCall" ++ toString t.nameIdx := by
  intro ks
  induction ks with
  | nil => intro cbs t ht; simp at ht
  | cons k ks ih =>
    intro cbs t ht
    cases cbs with
    | nil => simp at ht
    | cons cb cbs =>
      rcases List.mem_cons.mp ht with hh | hh
      · subst hh; rfl
      · exact ih cbs t hh

theorem foldl_spliceStep :
    ∀ (l : List (TraitDef × TraitImpl)) (body : List BodyStmt),
      l.foldl spliceStep body = synthItems l ++ body := by
  intro l
  induction l with
  | nil => intro body; simp [synthItems]
  | cons p l ih =>
    intro body
    simp only [List.foldl_cons, synthItems]
    rw [ih (spliceStep body p), ih (spliceStep [] p)]
    simp [spliceStep]

theorem synthItems_cons (p : TraitDef × TraitImpl) (l : List (TraitDef × TraitImpl)) :
    synthItems (p :: l) = synthItems l ++ [.traitDecl p.1, .implDecl p.2] := by
  simp only [synthItems, List.foldl_cons]
  rw [foldl_spliceStep l (spliceStep [] p)]
  rfl

theorem synthItems_all_synth :
    ∀ (l : List (TraitDef × TraitImpl)) (s : BodyStmt),
      s ∈ synthItems l → isSynthDecl s = true := by
  intro l
  induction l with
  | nil => intro s hs; simp [synthItems] at hs
  | cons p l ih =>
    intro s hs
    rw [synthItems_cons] at hs
    rcases List.mem_append.mp hs with hh | hh
    · exact ih s hh
    · rcases List.mem_cons.mp hh with hh' | hh'
      · subst hh'; rfl
      · rcases List.mem_cons.mp hh' with hh'' | hh''
        · subst hh''; rfl
        · simp at hh''

theorem mem_synthItems_of_mem :
    ∀ (l : List (TraitDef × TraitImpl)) (p : TraitDef × TraitImpl), p ∈ l →
      BodyStmt.traitDecl p.1 ∈ synthItems l ∧ BodyStmt.implDecl p.2 ∈ synthItems l := by
  intro l
  induction l with
  | nil => intro p hp; simp at hp
  | cons q l ih =>
    intro p hp
    rw [synthItems_cons]
    rcases List.mem_cons.mp hp with hh | hh
    · subst hh
      constructor
      · exact List.mem_append.mpr (Or.inr (by simp))
      · exact List.mem_append.mpr (Or.inr (by simp))
    · obtain ⟨h1, h2⟩ := ih p hh
      exact ⟨List.mem_append.mpr (Or.inl h1), List.mem_append.mpr (Or.inl h2)⟩

/-! ### Lemmas about all-owned parameter lists and the owner-reference case -/

theorem argsLoopS_allOwned (f : NapiFn) :
    ∀ (args : List NapiFnArgKind) (slot tc : Nat),
      (∀ a ∈ args, isOwnedValueArg f.parent a = true) →
      (f.argsLoopS args slot tc).argExprs
          = (List.range' slot args.length).map ArgExpr.ident ∧
      (f.argsLoopS args slot tc).convs.length = args.length ∧
      (∀ k ty, args[k]? = some (NapiFnArgKind.patType ty) →
        (f.argsLoopS args slot tc).convs[k]?
          = some (ConvStmt.ownedConv (slot + k) ty f.strict)) := by
  intro args
  induction args with
  | nil => intro slot tc _; simp [NapiFn.argsLoopS]
  | cons a rest ih =>
    intro slot tc hall
    have ha := hall a (List.mem_cons_self a rest)
    cases a with
    | callback cb => simp [isOwnedValueArg] at ha
    | patType ty =>
      cases ty with
      | refTy m e => simp [isOwnedValueArg] at ha
      | path hd fg =>
        simp only [isOwnedValueArg, Bool.and_eq_true, Bool.not_eq_true'] at ha
        obtain ⟨he, ho⟩ := ha
        obtain ⟨h1, h2, h3⟩ :=
          ih (slot + 1) tc (fun a ha => hall a (List.mem_cons_of_mem _ ha))
        refine ⟨?_, ?_, ?_⟩
        · simp [NapiFn.argsLoopS, he, ho, h1, List.range'_succ]
        · simp [NapiFn.argsLoopS, he, ho, h2]
        · intro k ty' hk
          cases k with
          | zero =>
            simp only [List.getElem?_cons_zero, Option.some.injEq,
              NapiFnArgKind.patType.injEq] at hk
            subst hk
            simp [NapiFn.argsLoopS, he, ho, NapiFn.genTyArgConversion]
          | succ k =>
            simp only [List.getElem?_cons_succ] at hk
            have hrec := h3 k ty' hk
            have harith : slot + (k + 1) = slot + 1 + k := by omega
            simp [NapiFn.argsLoopS, he, ho, hrec, harith]

theorem isEnvTy_of_ownerRef (parent : Option String) (ty : Ty) :
    isOwnerRefTy parent ty = true → isEnvTy ty = false := by
  unfold isOwnerRefTy
  cases parent with
  | none => simp
  | some p =>
    intro hdec
    have := of_decide_eq_true hdec
    subst this
    rfl

theorem hasFetchThis_genTy (f : NapiFn) (i : Nat) (ty : Ty) :
    (match f.genTyArgConversion i ty with
      | ConvStmt.fetchThis _ _ => true
      | _ => false) = false := by
  cases ty with
  | path hd fg => rfl
  | refTy m e => cases m <;> rfl

theorem argsLoopS_no_fetchThis (f : NapiFn) :
    ∀ (args : List NapiFnArgKind) (slot tc : Nat),
      hasFetchThis (f.argsLoopS args slot tc).convs = false := by
  intro args
  induction args with
  | nil => intro slot tc; rfl
  | cons a rest ih =>
    intro slot tc
    cases a with
    | patType ty =>
      by_cases he : isEnvTy ty
      · simpa [NapiFn.argsLoopS, he, hasFetchThis] using ih slot tc
      · by_cases ho : isOwnerRefTy f.parent ty
        · simpa [NapiFn.argsLoopS, he, ho, hasFetchThis] using ih slot tc
        · have := ih (slot + 1) tc
          simp only [hasFetchThis] at this ⊢
          simp [NapiFn.argsLoopS, he, ho, this, hasFetchThis_genTy f slot ty]
    | callback cb =>
      by_cases hp : cb.pureFn
      · have := ih (slot + 1) tc
        simp only [hasFetchThis] at this ⊢
        simp [NapiFn.argsLoopS, hp, this]
      · have := ih (slot + 1) (tc + 1)
        simp only [hasFetchThis] at this ⊢
        simp [NapiFn.argsLoopS, hp, this]

theorem thisReference_mem_argsLoopS (f : NapiFn) :
    ∀ (args : List NapiFnArgKind) (slot tc : Nat) (ty : Ty),
      NapiFnArgKind.patType ty ∈ args → isOwnerRefTy f.parent ty = true →
      ArgExpr.thisReference ∈ (f.argsLoopS args slot tc).argExprs := by
  intro args
  induction args with
  | nil => intro slot tc ty hmem _; simp at hmem
  | cons a rest ih =>
    intro slot tc ty hmem ho
    rcases List.mem_cons.mp hmem with hh | hh
    · subst hh
      have he := isEnvTy_of_ownerRef f.parent ty ho
      simp [NapiFn.argsLoopS, he, ho]
    · cases a with
      | patType ty2 =>
        by_cases he2 : isEnvTy ty2
        · simp only [NapiFn.argsLoopS, he2, if_true]
          exact List.mem_cons_of_mem _ (ih slot tc ty hh ho)
        · by_cases ho2 : isOwnerRefTy f.parent ty2
          · simp [NapiFn.argsLoopS, he2, ho2]
          · simp only [NapiFn.argsLoopS, he2, ho2, Bool.false_eq_true, if_false]
            exact List.mem_cons_of_mem _ (ih (slot + 1) tc ty hh ho)
      | callback cb =>
        by_cases hp : cb.pureFn
        · simp only [NapiFn.argsLoopS, hp, if_true]
          exact List.mem_cons_of_mem _ (ih (slot + 1) tc ty hh ho)
        · simp only [NapiFn.argsLoopS, hp, Bool.false_eq_true, if_false]
          exact List.mem_cons_of_mem _ (ih (slot + 1) (tc + 1) ty hh ho)

theorem exists_zip_left :
    ∀ (l1 : List TraitDef) (l2 : List TraitImpl), l1.length = l2.length →
      ∀ a ∈ l1, ∃ b, (a, b) ∈ l1.zip l2 := by
  intro l1
  induction l1 with
  | nil => intro l2 _ a ha; simp at ha
  | cons x l1 ih =>
    intro l2 hlen a ha
    cases l2 with
    | nil => simp at hlen
    | cons y l2 =>
      rcases List.mem_cons.mp ha with hh | hh
      · exact ⟨y, by simp [hh]⟩
      · obtain ⟨b, hb⟩ := ih l2 (by simpa using hlen) a hh
        exact ⟨b, List.mem_cons_of_mem _ hb⟩

theorem exists_zip_right :
    ∀ (l1 : List TraitDef) (l2 : List TraitImpl), l1.length = l2.length →
      ∀ b ∈ l2, ∃ a, (a, b) ∈ l1.zip l2 := by
  intro l1
  induction l1 with
  | nil =>
    intro l2 hlen b hb
    cases l2 with
    | nil => simp at hb
    | cons y l2 => simp at hlen
  | cons x l1 ih =>
    intro l2 hlen b hb
    cases l2 with
    | nil => simp at hb
    | cons y l2 =>
      rcases List.mem_cons.mp hb with hh | hh
      · exact ⟨x, by simp [hh]⟩
      · obtain ⟨a, hA⟩ := ih l2 (by simpa using hlen) b hh
        exact ⟨a, List.mem_cons_of_mem _ hA⟩

theorem thisStmts_of_fnSelf_none (f : NapiFn) (h : f.fnSelf = none) :
    f.thisStmts = [] := by
  unfold NapiFn.thisStmts
  rcases f.parent with _ | p <;> simp [h]

/-! ### Claim theorems -/

/-- C3: slot-free parameters (an environment-handle parameter or an
owner-reference parameter) never advance the call-frame slot index, and every
slot-consuming parameter reads the call-frame slot equal to its position among
the slot-consuming parameters only: the ordered slot list of the emitted
conversions is exactly `range (number of slot-consuming parameters)`.  In
particular the descriptor `[Env, i32, i32]` converts its two integers from
slots 0 and 1 while the environment parameter is bound without a slot. -/
theorem claim_C3 (f : NapiFn) :
    convSlots f.genArgConversions.convs
        = List.range (consumingCount f.parent f.args) ∧
    exC3.genArgConversions.convs
        = [ConvStmt.ownedConv 0 tyI32 false, ConvStmt.ownedConv 1 tyI32 false] ∧
    exC3.genArgConversions.argExprs
        = [ArgExpr.envExpr, ArgExpr.ident 0, ArgExpr.ident 1] := by
  refine ⟨?_, by decide, by decide⟩
  rw [genArgConversions_eq_loopS]
  show convSlots (f.thisStmts ++ (f.argsLoopS f.args 0 0).convs) = _
  unfold convSlots
  rw [List.filterMap_append]
  have h1 := convSlots_thisStmts f
  have h2 := convSlots_argsLoopS f f.args 0 0
  unfold convSlots at h1 h2
  rw [h1, h2, List.range_eq_range' (consumingCount f.parent f.args)]
  simp

/-- C8: receiver resolution is a total function of (receiver, owner):
`BorrowedSelf`/`MutablyBorrowedSelf` yield the receiver's own method,
`None` with an owner yields the owner-namespaced function, `None` without an
owner yields the bare function reference, and `ValueSelf` makes generation
fail fast (no callable expression, no native call, no entry point). -/
theorem claim_C8 (f : NapiFn) :
    ((f.fnSelf = some FnSelf.ref ∨ f.fnSelf = some FnSelf.mutRef) →
        f.genFnReceiver = some (ReceiverExpr.thisMethod f.name)) ∧
    (f.fnSelf = none → ∀ p, f.parent = some p →
        f.genFnReceiver = some (ReceiverExpr.nsFn p f.name)) ∧
    (f.fnSelf = none → f.parent = none →
        f.genFnReceiver = some (ReceiverExpr.bareFn f.name)) ∧
    (f.fnSelf = some FnSelf.value →
        f.genFnReceiver = none ∧ f.genNativeCall = none ∧ f.genFunctionCall = none) := by
  refine ⟨?_, ?_, ?_, ?_⟩
  · rintro (h | h) <;> simp [NapiFn.genFnReceiver, h]
  · intro h p hp; simp [NapiFn.genFnReceiver, h, hp]
  · intro h hp; simp [NapiFn.genFnReceiver, h, hp]
  · intro h
    have h1 : f.genFnReceiver = none := by simp [NapiFn.genFnReceiver, h]
    have h2 : f.genNativeCall = none := by simp [NapiFn.genNativeCall, h1]
    exact ⟨h1, h2, by simp [NapiFn.genFunctionCall, h2]⟩

theorem claim_C8_witness :
    fC8w.genFnReceiver = some (ReceiverExpr.thisMethod "m") :=
  (claim_C8 fC8w).1 (Or.inl rfl)

/-- C10: the owner-reference special case fires whenever the owner is set and
the parameter's type is `Reference<owner>`, with no condition on the receiver
(the reused instance-handle expression is pushed into the call-argument list);
yet the `this_ptr` binding it relies on is emitted exactly when the receiver is
`&self` or `&mut self`, so the generated code is well-scoped only under the
precondition that the receiver is not `None`. -/
theorem claim_C10 (f : NapiFn) (p : String) (ty : Ty)
    (hpar : f.parent = some p)
    (hmem : NapiFnArgKind.patType ty ∈ f.args)
    (href : ty = Ty.path "Reference" (some p)) :
    ArgExpr.thisReference ∈ f.genArgConversions.argExprs ∧
    (hasFetchThis f.genArgConversions.convs = true ↔
      (f.fnSelf = some FnSelf.ref ∨ f.fnSelf = some FnSelf.mutRef)) := by
  have ho : isOwnerRefTy f.parent ty = true := by
    rw [hpar, href]
    simp [isOwnerRefTy]
  constructor
  · rw [genArgConversions_eq_loopS]
    exact thisReference_mem_argsLoopS f f.args 0 0 ty hmem ho
  · rw [genArgConversions_eq_loopS]
    show hasFetchThis (f.thisStmts ++ (f.argsLoopS f.args 0 0).convs) = true ↔ _
    have hloop := argsLoopS_no_fetchThis f f.args 0 0
    unfold hasFetchThis at hloop ⊢
    rw [List.any_append, hloop, Bool.or_false]
    rcases hsf : f.fnSelf with _ | s
    · simp [NapiFn.thisStmts, hpar, hsf]
    · cases s <;> simp [NapiFn.thisStmts, hpar, hsf]

theorem claim_C10_witness :
    ArgExpr.thisReference ∈ fC10w.genArgConversions.argExprs ∧
    hasFetchThis fC10w.genArgConversions.convs = false := by
  have h := claim_C10 fC10w "A" (Ty.path "Reference" (some "A")) rfl (by decide) rfl
  refine ⟨h.1, ?_⟩
  rcases hb : hasFetchThis fC10w.genArgConversions.convs with _ | _
  · rfl
  · exact absurd (h.2.mp hb) (by decide)

/-- C5: every non-pure callback parameter produces exactly one synthesized
invocation interface and exactly one implementation of it — both lists equal
the per-counter `zipWith` over the non-pure callbacks — the interfaces are
uniquely named by the per-function counter (`FunctionCall{n}`, pairwise
distinct), and every synthesized declaration is spliced ahead of the first
statement of the body of the function being generated (the emitted body is the
synthesized prefix followed by the untouched original statements). -/
theorem claim_C5 (f : NapiFn) (body : List BodyStmt) :
    f.genArgConversions.traitDefs
        = List.zipWith mkTraitDef
            (List.range (nonPureCbs f.args).length) (nonPureCbs f.args) ∧
    f.genArgConversions.traitImpls
        = List.zipWith mkTraitImpl
            (List.range (nonPureCbs f.args).length) (nonPureCbs f.args) ∧
    f.genArgConversions.traitDefs.length = (nonPureCbs f.args).length ∧
    f.genArgConversions.traitImpls.length = (nonPureCbs f.args).length ∧
    f.genArgConversions.traitDefs.map TraitDef.nameIdx
        = List.range (nonPureCbs f.args).length ∧
    (f.genArgConversions.traitDefs.map TraitDef.nameIdx).Nodup ∧
    (∀ d ∈ f.genArgConversions.traitDefs,
        d.name = "FunctionCall" ++ toString d.nameIdx) ∧
    (∀ t ∈ f.genArgConversions.traitImpls,
        t.traitName = "FunctionCall" ++ toString t.nameIdx) ∧
    f.genUserBody body
        = synthItems (f.genArgConversions.traitDefs.zip f.genArgConversions.traitImpls)
            ++ body ∧
    (∀ s ∈ synthItems (f.genArgConversions.traitDefs.zip f.genArgConversions.traitImpls),
        isSynthDecl s = true) ∧
    (∀ d ∈ f.genArgConversions.traitDefs,
        BodyStmt.traitDecl d
          ∈ synthItems (f.genArgConversions.traitDefs.zip f.genArgConversions.traitImpls)) ∧
    (∀ t ∈ f.genArgConversions.traitImpls,
        BodyStmt.implDecl t
          ∈ synthItems (f.genArgConversions.traitDefs.zip f.genArgConversions.traitImpls)) := by
  have htr := argsLoopS_traits f f.args 0 0
  have hdefs : f.genArgConversions.traitDefs
      = List.zipWith mkTraitDef
          (List.range (nonPureCbs f.args).length) (nonPureCbs f.args) := by
    rw [genArgConversions_eq_loopS]
    rw [List.range_eq_range' (nonPureCbs f.args).length]
    exact htr.1
  have himpls : f.genArgConversions.traitImpls
      = List.zipWith mkTraitImpl
          (List.range (nonPureCbs f.args).length) (nonPureCbs f.args) := by
    rw [genArgConversions_eq_loopS]
    rw [List.range_eq_range' (nonPureCbs f.args).length]
    exact htr.2
  have hlen : f.genArgConversions.traitDefs.length = (nonPureCbs f.args).length := by
    rw [hdefs]
    simp [List.length_zipWith]
  have hleni : f.genArgConversions.traitImpls.length = (nonPureCbs f.args).length := by
    rw [himpls]
    simp [List.length_zipWith]
  have hmap : f.genArgConversions.traitDefs.map TraitDef.nameIdx
      = List.range (nonPureCbs f.args).length := by
    rw [hdefs]
    exact map_nameIdx_zipWith _ _ (by simp)
  have hbody : f.genUserBody body
      = synthItems (f.genArgConversions.traitDefs.zip f.genArgConversions.traitImpls)
          ++ body := by
    unfold NapiFn.genUserBody
    by_cases hempty : f.genArgConversions.traitDefs.isEmpty
    · have hnil : f.genArgConversions.traitDefs = [] := by
        simpa [List.isEmpty_iff] using hempty
      simp [hempty, hnil, synthItems]
    · simp only [hempty, Bool.false_eq_true, if_false]
      exact foldl_spliceStep _ body
  refine ⟨hdefs, himpls, hlen, hleni, hmap, ?_, ?_, ?_, hbody, ?_, ?_, ?_⟩
  · rw [hmap]
    exact List.nodup_range (nonPureCbs f.args).length
  · intro d hd
    rw [hdefs] at hd
    exact name_of_mem_zipWith _ _ d hd
  · intro t ht
    rw [himpls] at ht
    exact implName_of_mem_zipWith _ _ t ht
  · intro s hs
    exact synthItems_all_synth _ s hs
  · intro d hd
    obtain ⟨b, hb⟩ := exists_zip_left _ _ (hlen.trans hleni.symm) d hd
    exact (mem_synthItems_of_mem _ (d, b) hb).1
  · intro t ht
    obtain ⟨a, hA⟩ := exists_zip_right _ _ (hlen.trans hleni.symm) t ht
    exact (mem_synthItems_of_mem _ (a, t) hA).2

theorem claim_C5_witness :
    fC5w.genArgConversions.traitDefs = [mkTraitDef 0 cbNonPure] ∧
    fC5w.genUserBody [BodyStmt.orig 0]
      = [BodyStmt.traitDecl (mkTraitDef 0 cbNonPure),
         BodyStmt.implDecl (mkTraitImpl 0 cbNonPure), BodyStmt.orig 0] := by
  have h := claim_C5 fC5w [BodyStmt.orig 0]
  refine ⟨?_, ?_⟩
  · rw [h.1]
    decide
  · rw [h.2.2.2.2.2.2.2.2.1]
    decide

/-- C1: for a synchronous fallible Plain/Method function with a return type,
the receiver-self return shape maps a native success to the original receiver
handle unchanged (no return conversion is performed) and propagates a native
failure as the dispatch failure of the entry point; a non-self return shape
converts a native success to a runtime value, while a native failure is turned
into a thrown host exception together with a null handle returned as an
ordinary success of the dispatch. -/
theorem claim_C1 (f : NapiFn) (ty : Ty)
    (hk : f.kind = FnKind.plain) (ha : f.isAsync = false)
    (hf : f.isRetResult = true) (hr : f.ret = some ty) :
    (isReturnSelf ty = true →
      f.genFnReturn = RetAssembly.returnSelfFallible ∧
      (∀ (h : Host) (v : NativeVal),
        evalRetAssembly h (.ok v) f.genFnReturn = (.ok h.thisVal, [])) ∧
      (∀ (h : Host) (e : Err),
        evalRetAssembly h (.error e) f.genFnReturn = (.error e, []))) ∧
    (isReturnSelf ty = false →
      f.genFnReturn = RetAssembly.fallibleMatch ∧
      (∀ (h : Host) (v : NativeVal),
        evalRetAssembly h (.ok v) f.genFnReturn = (h.toNapi v, [Event.retConvertEv])) ∧
      (∀ (h : Host) (e : Err),
        evalRetAssembly h (.error e) f.genFnReturn
          = (.ok JsVal.nullPtr, [Event.throwEv e]))) := by
  constructor
  · intro hs
    have hgen : f.genFnReturn = RetAssembly.returnSelfFallible := by
      simp [NapiFn.genFnReturn, hr, hk, hf, ha, hs]
    exact ⟨hgen, fun h v => by rw [hgen]; rfl, fun h e => by rw [hgen]; rfl⟩
  · intro hs
    have hgen : f.genFnReturn = RetAssembly.fallibleMatch := by
      simp [NapiFn.genFnReturn, hr, hk, hf, ha, hs]
    exact ⟨hgen, fun h v => by rw [hgen]; rfl, fun h e => by rw [hgen]; rfl⟩

theorem claim_C1_witness :
    fC1w.genFnReturn = RetAssembly.returnSelfFallible ∧
    evalRetAssembly host0 (.ok 5) fC1w.genFnReturn = (.ok host0.thisVal, []) ∧
    evalRetAssembly host0 (.error 9) fC1w.genFnReturn = (.error 9, []) :=
  ⟨((claim_C1 fC1w tyRetSelf rfl rfl rfl rfl).1 rfl).1,
   ((claim_C1 fC1w tyRetSelf rfl rfl rfl rfl).1 rfl).2.1 host0 5,
   ((claim_C1 fC1w tyRetSelf rfl rfl rfl rfl).1 rfl).2.2 host0 9⟩

/-- C2: the entry point generated for a constructor checks the process-wide
factory-guard flag before the call-frame accessor is constructed and before
any argument conversion: with the flag set it returns a null handle with no
events (no conversion, no native call, nothing thrown) for every host —
including hosts whose frame construction or conversions would fail; with the
flag unset it behaves exactly as the ordinary framed dispatch over the same
conversions and native call. -/
theorem claim_C2 (f : NapiFn) (hk : f.kind = FnKind.constructor)
    (hv : f.fnSelf ≠ some FnSelf.value) :
    ∃ nc, f.genNativeCall = some nc ∧
      f.genFunctionCall
        = some (FunctionCall.guarded f.args.length f.genArgConversions.convs nc) ∧
      (∀ h : Host, runEntry f h true = some ⟨JsVal.nullPtr, [], none⟩) ∧
      (∀ h : Host, runEntry f h false
        = some (entryWrap (evalFramed h f.args.length f.genArgConversions.convs nc))) := by
  have hrecv : ∃ r, f.genFnReceiver = some r := by
    rcases hsf : f.fnSelf with _ | s
    · rcases hp : f.parent with _ | p
      · exact ⟨ReceiverExpr.bareFn f.name, by simp [NapiFn.genFnReceiver, hsf, hp]⟩
      · exact ⟨ReceiverExpr.nsFn p f.name, by simp [NapiFn.genFnReceiver, hsf, hp]⟩
    · cases s with
      | value => exact absurd hsf hv
      | ref =>
        exact ⟨ReceiverExpr.thisMethod f.name, by simp [NapiFn.genFnReceiver, hsf]⟩
      | mutRef =>
        exact ⟨ReceiverExpr.thisMethod f.name, by simp [NapiFn.genFnReceiver, hsf]⟩
  obtain ⟨r, hrec⟩ := hrecv
  have hnc : f.genNativeCall = some (if f.isAsync then
      NativeCall.asyncCall (!f.isRetResult) r f.genArgConversions.argExprs f.genFnReturn
    else NativeCall.sync f.isRetResult r f.genArgConversions.argExprs f.genFnReturn) := by
    simp [NapiFn.genNativeCall, hrec]
  have hfc : f.genFunctionCall
      = some (FunctionCall.guarded f.args.length f.genArgConversions.convs
          (if f.isAsync then
            NativeCall.asyncCall (!f.isRetResult) r f.genArgConversions.argExprs
              f.genFnReturn
          else
            NativeCall.sync f.isRetResult r f.genArgConversions.argExprs
              f.genFnReturn)) := by
    simp [NapiFn.genFunctionCall, hnc, hk]
  refine ⟨_, hnc, hfc, ?_, ?_⟩
  · intro h
    simp only [runEntry, hfc, Option.map_some']
    rfl
  · intro h
    simp only [runEntry, hfc, Option.map_some']
    rfl

theorem claim_C2_witness :
    runEntry fC2w hostFrameFail true = some ⟨JsVal.nullPtr, [], none⟩ := by
  obtain ⟨nc, _, _, hset, _⟩ :=
    claim_C2 fC2w rfl (by intro h; exact Option.noConfusion h)
  exact hset hostFrameFail

/-- C7: for every generated entry point, the returned handle is always
produced by the outermost wrapper: a dispatch failure (conversion error,
invocation error, or any other unhandled failure) is converted into a host
exception thrown into the environment plus a null handle, and a dispatch
success or abrupt return passes its handle through unchanged — the entry
point never surfaces an unconverted failure. -/
theorem claim_C7 (f : NapiFn) (h : Host) (g : Bool) (fc : FunctionCall)
    (hfc : f.genFunctionCall = some fc) :
    runEntry f h g = some (entryWrap (evalFunctionCall h g fc)) ∧
    (∀ e evs d, evalFunctionCall h g fc = (DispatchRes.err e, evs, d) →
      runEntry f h g = some ⟨JsVal.nullPtr, evs ++ [Event.throwEv e], d⟩) ∧
    (∀ v evs d, evalFunctionCall h g fc = (DispatchRes.ok v, evs, d) →
      runEntry f h g = some ⟨v, evs, d⟩) ∧
    (∀ v evs d, evalFunctionCall h g fc = (DispatchRes.abrupt v, evs, d) →
      runEntry f h g = some ⟨v, evs, d⟩) := by
  have hrun : runEntry f h g = some (entryWrap (evalFunctionCall h g fc)) := by
    rw [runEntry, hfc]
    rfl
  refine ⟨hrun, ?_, ?_, ?_⟩ <;> intro x evs d hx <;> rw [hrun, hx] <;> rfl

theorem claim_C7_witness :
    runEntry fC7w hostFrameFail false
      = some ⟨JsVal.nullPtr, [Event.throwEv 3], none⟩ := by
  have h := (claim_C7 fC7w hostFrameFail false
      (FunctionCall.framed 1 [ConvStmt.ownedConv 0 tyI32 false]
        (NativeCall.sync false (ReceiverExpr.bareFn "f") [ArgExpr.ident 0]
          RetAssembly.unitConvert))
      (by decide)).2.1 3 [] none (by decide)
  simpa using h

/-- C6 (amended): for every async fallible descriptor the native call is
wrapped as a deferred task: the entry point's synchronous part returns the
deferred handle with no events and no thrown exception, a task failure is
forwarded to reject the externally visible deferred value (never unwrapped or
converted inline), and — for a Plain/Method descriptor with a return type —
the async success path's return assembly converts the produced value directly. -/
theorem claim_C6 (f : NapiFn) (ha : f.isAsync = true) (hf : f.isRetResult = true) :
    (∀ nc, f.genNativeCall = some nc →
      ∃ recv, nc = NativeCall.asyncCall false recv f.genArgConversions.argExprs
        f.genFnReturn) ∧
    (∀ (h : Host) (b : Bindings) (recv : ReceiverExpr) (argEs : List ArgExpr)
        (ret : RetAssembly),
      evalNativeCall h b (NativeCall.asyncCall false recv argEs ret)
        = (.ok h.promiseVal, [], some (asyncDeferred h b argEs false ret))) ∧
    (∀ (h : Host) (b : Bindings) (argEs : List ArgExpr) (ret : RetAssembly)
        (vals : List NativeVal) (e : Err),
      evalArgs h b argEs = .ok vals → h.callResult vals = .error e →
      asyncDeferred h b argEs false ret
        = DeferredOutcome.rejected e [Event.nativeCallEv]) ∧
    (f.kind = FnKind.plain → ∀ ty, f.ret = some ty →
      f.genFnReturn = RetAssembly.asyncConvert ∧
      (∀ (h : Host) (b : Bindings) (argEs : List ArgExpr) (vals : List NativeVal)
          (v : NativeVal) (j : JsVal),
        evalArgs h b argEs = .ok vals → h.callResult vals = .ok v →
        h.toNapi v = .ok j →
        asyncDeferred h b argEs false f.genFnReturn
          = DeferredOutcome.resolved j [Event.nativeCallEv, Event.retConvertEv])) := by
  refine ⟨?_, ?_, ?_, ?_⟩
  · intro nc hnc
    rcases hrec : f.genFnReceiver with _ | r
    · rw [NapiFn.genNativeCall, hrec] at hnc
      exact absurd hnc (by simp)
    · rw [NapiFn.genNativeCall, hrec] at hnc
      simp only [Option.map_some', Option.some.injEq] at hnc
      refine ⟨r, ?_⟩
      rw [← hnc]
      simp [ha, hf]
  · intro h b recv argEs ret
    rfl
  · intro h b argEs ret vals e hargs hcall
    simp [asyncDeferred, hargs, hcall]
  · intro hk ty hrt
    have hgen : f.genFnReturn = RetAssembly.asyncConvert := by
      simp [NapiFn.genFnReturn, hrt, hk, hf, ha]
    refine ⟨hgen, ?_⟩
    intro h b argEs vals v j hargs hcall htj
    rw [hgen]
    simp [asyncDeferred, hargs, hcall, evalRetAssembly, htj]

theorem claim_C6_witness :
    fC6w.genFnReturn = RetAssembly.asyncConvert ∧
    evalNativeCall host0 emptyBindings
        (NativeCall.asyncCall false (ReceiverExpr.bareFn "g") [] fC6w.genFnReturn)
      = (.ok host0.promiseVal, [],
         some (asyncDeferred host0 emptyBindings [] false fC6w.genFnReturn)) ∧
    asyncDeferred host0 emptyBindings [] false fC6w.genFnReturn
      = DeferredOutcome.resolved (JsVal.handle 2)
          [Event.nativeCallEv, Event.retConvertEv] := by
  have h := claim_C6 fC6w rfl rfl
  have h4 := h.2.2.2 rfl tyStrT rfl
  exact ⟨h4.1,
    h.2.1 host0 emptyBindings (ReceiverExpr.bareFn "g") [] fC6w.genFnReturn,
    h4.2 host0 emptyBindings [] [] 0 (JsVal.handle 2) rfl rfl rfl⟩

/-- C6 counterexample: the claim as stated quantifies over *every* async
fallible descriptor, but an async fallible constructor's return assembly is
the instance-handle binding (`cb.construct`), not a direct conversion of the
produced value — the two assemblies are observably different. -/
theorem claim_C6_counterexample :
    fC6cex.isAsync = true ∧ fC6cex.isRetResult = true ∧
    fC6cex.genFnReturn = RetAssembly.construct true ∧
    fC6cex.genFnReturn ≠ RetAssembly.asyncConvert ∧
    evalRetAssembly hostCex (.ok 0) fC6cex.genFnReturn
      ≠ evalRetAssembly hostCex (.ok 0) RetAssembly.asyncConvert := by
  refine ⟨rfl, rfl, rfl, ?_, ?_⟩
  · intro hcontra
    exact RetAssembly.noConfusion hcontra
  · intro hcontra
    have h1 : evalRetAssembly hostCex (.ok 0) fC6cex.genFnReturn
        = (.error 7, [Event.constructEv]) := rfl
    have h2 : evalRetAssembly hostCex (.ok 0) RetAssembly.asyncConvert
        = (.ok (JsVal.handle 2), [Event.retConvertEv]) := rfl
    rw [h1, h2] at hcontra
    exact Except.noConfusion (congrArg Prod.fst hcontra)

/-- C9 (amended): for a descriptor whose parameters are all Owned Value
parameters, none of which is an owner-reference parameter, and whose receiver
is `None`, the emitted conversion list and the call-site argument list have
the same length as the parameter list, and conversion `k` binds `arg k` from
slot `k`, the very name used as call argument `k` — relative order preserved. -/
theorem claim_C9 (f : NapiFn) (hself : f.fnSelf = none)
    (hall : ∀ a ∈ f.args, isOwnedValueArg f.parent a = true) :
    f.genArgConversions.convs.length = f.args.length ∧
    f.genArgConversions.argExprs.length = f.args.length ∧
    f.genArgConversions.argExprs = (List.range f.args.length).map ArgExpr.ident ∧
    (∀ k ty, f.args[k]? = some (NapiFnArgKind.patType ty) →
      f.genArgConversions.convs[k]? = some (ConvStmt.ownedConv k ty f.strict) ∧
      f.genArgConversions.argExprs[k]? = some (ArgExpr.ident k)) := by
  obtain ⟨h1, h2, h3⟩ := argsLoopS_allOwned f f.args 0 0 hall
  have hthis := thisStmts_of_fnSelf_none f hself
  have hconvs : f.genArgConversions.convs = (f.argsLoopS f.args 0 0).convs := by
    rw [genArgConversions_eq_loopS]
    show f.thisStmts ++ (f.argsLoopS f.args 0 0).convs = _
    rw [hthis]
    rfl
  have hexprs : f.genArgConversions.argExprs = (f.argsLoopS f.args 0 0).argExprs := by
    rw [genArgConversions_eq_loopS]
  have hexprs2 : f.genArgConversions.argExprs
      = (List.range f.args.length).map ArgExpr.ident := by
    rw [hexprs, h1, List.range_eq_range' f.args.length]
  refine ⟨?_, ?_, hexprs2, ?_⟩
  · rw [hconvs]
    exact h2
  · rw [hexprs2]
    simp
  · intro k ty hk
    have hklt : k < f.args.length := (List.getElem?_eq_some.mp hk).1
    constructor
    · rw [hconvs]
      have := h3 k ty hk
      simpa using this
    · rw [hexprs2]
      simp [List.getElem?_map, List.getElem?_range hklt]

theorem claim_C9_witness :
    fC9w.genArgConversions.convs.length = 2 ∧
    fC9w.genArgConversions.argExprs = [ArgExpr.ident 0, ArgExpr.ident 1] ∧
    fC9w.genArgConversions.convs[1]? = some (ConvStmt.ownedConv 1 tyI32 false) := by
  have h := claim_C9 fC9w rfl (by decide)
  refine ⟨h.1, ?_, (h.2.2.2 1 tyI32 (by decide)).1⟩
  rw [h.2.2.1]
  decide

/-- C9 counterexample: a static method (owner set, receiver `None`) taking a
single owner-reference parameter — an Owned Value parameter in the spec's data
model — gets zero conversion statements but one call-site argument, so the two
lists differ in length and the claim as stated fails. -/
theorem claim_C9_counterexample :
    fC9cex.fnSelf = none ∧
    (∀ a ∈ fC9cex.args, specOwnedValue a = true) ∧
    fC9cex.genArgConversions.convs.length = 0 ∧
    fC9cex.genArgConversions.argExprs.length = 1 ∧
    fC9cex.genArgConversions.convs.length
      ≠ fC9cex.genArgConversions.argExprs.length := by
  refine ⟨rfl, by decide, by decide, by decide, by decide⟩

theorem count_convert_pair (i : Nat) :
    List.count (Event.convertEv i) [Event.validateEv i, Event.convertEv i] = 1 := by
  simp [List.count_cons]

/-- C4: for an Owned (non-reference) Value parameter at slot `i` of a strict
descriptor, the generator emits a strict owned conversion at exactly that slot
(the conversion list splits around it); semantically, if the conversions ahead
of it succeed and validation of slot `i` yields a non-null sentinel, the whole
conversion list returns that sentinel early — the framed dispatch then returns
it as an ordinary success with no conversion of slot `i`, no conversion of any
later slot, and no native call; if validation yields null, the owned
conversion of slot `i` runs exactly once. -/
theorem claim_C4 (f : NapiFn) (l r : List NapiFnArgKind) (ty : Ty)
    (hstrict : f.strict = true)
    (hargs : f.args = l ++ NapiFnArgKind.patType ty :: r)
    (he : isEnvTy ty = false) (ho : isOwnerRefTy f.parent ty = false)
    (hnr : ∀ m e, ty ≠ Ty.refTy m e) :
    f.genArgConversions.convs
        = (f.thisStmts ++ (f.argsLoopS l 0 0).convs)
          ++ ConvStmt.ownedConv (consumingCount f.parent l) ty true
            :: (f.argsLoopS r (consumingCount f.parent l + 1)
                  (nonPureCbs l).length).convs ∧
    (∀ (h : Host) (b1 : Bindings) (evs : List Event) (s : JsVal),
      evalConvs h emptyBindings (f.thisStmts ++ (f.argsLoopS l 0 0).convs)
          = (.ok b1, evs) →
      h.validate (consumingCount f.parent l) = .ok s → s ≠ JsVal.nullPtr →
      evalConvs h emptyBindings f.genArgConversions.convs
          = (.early s, evs ++ [Event.validateEv (consumingCount f.parent l)]) ∧
      (∀ j, consumingCount f.parent l ≤ j →
        Event.convertEv j ∉ evs ++ [Event.validateEv (consumingCount f.parent l)]) ∧
      Event.nativeCallEv ∉ evs ++ [Event.validateEv (consumingCount f.parent l)] ∧
      (h.frameInit f.args.length = none → ∀ nc,
        evalFramed h f.args.length f.genArgConversions.convs nc
          = (.ok s, evs ++ [Event.validateEv (consumingCount f.parent l)], none))) ∧
    (∀ (h : Host) (b : Bindings),
      h.validate (consumingCount f.parent l) = .ok JsVal.nullPtr →
      (evalConvStmt h b
          (ConvStmt.ownedConv (consumingCount f.parent l) ty true)).2
        = [Event.validateEv (consumingCount f.parent l),
           Event.convertEv (consumingCount f.parent l)] ∧
      List.count (Event.convertEv (consumingCount f.parent l))
          (evalConvStmt h b
            (ConvStmt.ownedConv (consumingCount f.parent l) ty true)).2 = 1) := by
  have hgenty : f.genTyArgConversion (consumingCount f.parent l) ty
      = ConvStmt.ownedConv (consumingCount f.parent l) ty true := by
    cases ty with
    | path hd fg => simp [NapiFn.genTyArgConversion, hstrict]
    | refTy m e => exact absurd rfl (hnr m e)
  have hsplit : f.genArgConversions.convs
      = (f.thisStmts ++ (f.argsLoopS l 0 0).convs)
        ++ ConvStmt.ownedConv (consumingCount f.parent l) ty true
          :: (f.argsLoopS r (consumingCount f.parent l + 1)
                (nonPureCbs l).length).convs := by
    rw [genArgConversions_eq_loopS]
    show f.thisStmts ++ (f.argsLoopS f.args 0 0).convs = _
    rw [hargs, argsLoopS_append f l (NapiFnArgKind.patType ty :: r) 0 0]
    simp [GenArgs.append, NapiFn.argsLoopS, he, ho, hgenty, List.append_assoc]
  have hprefixSlots : convSlots (f.thisStmts ++ (f.argsLoopS l 0 0).convs)
      = List.range' 0 (consumingCount f.parent l) := by
    unfold convSlots
    rw [List.filterMap_append]
    have h1 := convSlots_thisStmts f
    have h2 := convSlots_argsLoopS f l 0 0
    unfold convSlots at h1 h2
    rw [h1, h2]
    rfl
  refine ⟨hsplit, ?_, ?_⟩
  · intro h b1 evs s hpre hval hs0
    have hstep : evalConvStmt h b1
        (ConvStmt.ownedConv (consumingCount f.parent l) ty true)
        = (.early s, [Event.validateEv (consumingCount f.parent l)]) := by
      simp [evalConvStmt, hval, hs0]
    have htail : evalConvs h b1
        (ConvStmt.ownedConv (consumingCount f.parent l) ty true
          :: (f.argsLoopS r (consumingCount f.parent l + 1)
                (nonPureCbs l).length).convs)
        = (.early s, [Event.validateEv (consumingCount f.parent l)]) := by
      simp [evalConvs, hstep]
    have hfull : evalConvs h emptyBindings f.genArgConversions.convs
        = (.early s, evs ++ [Event.validateEv (consumingCount f.parent l)]) := by
      rw [hsplit, evalConvs_append_ok h _ _ _ _ hpre _, htail]
    have hfromPrefix : ∀ ev, ev ∈ evs →
        ev = Event.fetchThisEv ∨
          ∃ i, (∃ s' ∈ f.thisStmts ++ (f.argsLoopS l 0 0).convs,
              stmtSlot s' = some i) ∧
            (ev = Event.validateEv i ∨ ev = Event.convertEv i ∨
              ev = Event.assertEv i) := by
      intro ev hm
      have hev : ev ∈ (evalConvs h emptyBindings
          (f.thisStmts ++ (f.argsLoopS l 0 0).convs)).2 := by
        rw [hpre]
        exact hm
      exact evalConvs_events h _ _ ev hev
    have hslotlt : ∀ i, (∃ s' ∈ f.thisStmts ++ (f.argsLoopS l 0 0).convs,
        stmtSlot s' = some i) → i < consumingCount f.parent l := by
      intro i ⟨s', hs', hsi⟩
      have : i ∈ convSlots (f.thisStmts ++ (f.argsLoopS l 0 0).convs) :=
        List.mem_filterMap.mpr ⟨s', hs', hsi⟩
      rw [hprefixSlots] at this
      have := (List.mem_range'_1.mp this).2
      omega
    refine ⟨hfull, ?_, ?_, ?_⟩
    · intro j hj hmem
      rcases List.mem_append.mp hmem with hm | hm
      · rcases hfromPrefix _ hm with hc | ⟨i, hex, hor⟩
        · exact Event.noConfusion hc
        · rcases hor with h1 | h1 | h1
          · exact Event.noConfusion h1
          · have hij : j = i := by injection h1
            have := hslotlt i hex
            omega
          · exact Event.noConfusion h1
      · simp at hm
    · intro hmem
      rcases List.mem_append.mp hmem with hm | hm
      · rcases hfromPrefix _ hm with hc | ⟨i, _, hor⟩
        · exact Event.noConfusion hc
        · rcases hor with h1 | h1 | h1 <;> exact Event.noConfusion h1
      · simp at hm
    · intro hframe nc
      simp [evalFramed, hframe, hfull]
  · intro h b hval0
    constructor
    · rcases hro : h.fromOwned (consumingCount f.parent l) with e | v <;>
        simp [evalConvStmt, hval0, hro]
    · rcases hro : h.fromOwned (consumingCount f.parent l) with e | v <;>
      · have hev : (evalConvStmt h b
            (ConvStmt.ownedConv (consumingCount f.parent l) ty true)).2
            = [Event.validateEv (consumingCount f.parent l),
               Event.convertEv (consumingCount f.parent l)] := by
          simp [evalConvStmt, hval0, hro]
        rw [hev]
        exact count_convert_pair (consumingCount f.parent l)

theorem claim_C4_witness :
    evalConvs hostSentinel emptyBindings fC4w.genArgConversions.convs
      = (.early (JsVal.handle 5), [Event.validateEv 0]) ∧
    evalFramed hostSentinel 1 fC4w.genArgConversions.convs
        (NativeCall.sync false (ReceiverExpr.bareFn "f") [ArgExpr.ident 0]
          RetAssembly.convertDirect)
      = (.ok (JsVal.handle 5), [Event.validateEv 0], none) := by
  have h := (claim_C4 fC4w [] [] tyI32 rfl rfl rfl rfl
      (fun m e hcontra => Ty.noConfusion hcontra)).2.1 hostSentinel emptyBindings []
      (JsVal.handle 5) rfl rfl (by decide)
  refine ⟨by simpa using h.1, ?_⟩
  have h4 := h.2.2.2 rfl
      (NativeCall.sync false (ReceiverExpr.bareFn "f") [ArgExpr.ident 0]
        RetAssembly.convertDirect)
  simpa using h4

end NapiGen
